import Mathlib

/-!
Verification development for `ACPCHandConverter.py`: a converter from ACPC
poker hand-history records to PokerStars-style transcripts.  The embedding
below models, over `List Char`, `ℤ` and `ℚ`:

* `process_line`  — record parsing and its validation failures;
* `create_actions` — the per-street betting replay state machine
  (tokenization, blind seeding, actor rotation, fold/check/call/bet/raise);
* `award_pot`    — pot computation, winners, splits and the uncalled-bet
  return.

Python raw strings are modelled as `List Char`; `str.split(sep)` for a
single-character separator is `split_on_char`; Python `int` is `ℤ`; Python
floats carrying the (exactly representable, short decimal) net results are
modelled as `ℚ`; a Python uncaught exception (IndexError, infinite loop) is
`none` / `Except.error`.  `int(...)` and `float(...)` applied to record
fields are modelled on the plain decimal-literal subset those records use.
-/

namespace ACPC

/-- Python `s.split(sep)` for a one-character separator: splits on every
occurrence, keeping empty groups; `"".split(sep) = [""]`. -/
def split_on_char (sep : Char) : List Char → List (List Char)
  | [] => [[]]
  | c :: rest =>
    if c = sep then [] :: split_on_char sep rest
    else
      match split_on_char sep rest with
      | [] => [[c]]
      | g :: gs => (c :: g) :: gs

/-- Numeric value of a decimal digit character. -/
def digitVal (c : Char) : ℕ := c.toNat - 48

/-- Value of a digit string read most-significant first, as the source
accumulates it (`bet_size = bet_size * 10 + int(ch)`). -/
def digitsValN (ds : List Char) : ℕ := ds.foldl (fun a c => a * 10 + digitVal c) 0

/-- Integer value of a digit string, for no-limit raise targets. -/
def digits_val (ds : List Char) : ℤ := (digitsValN ds : ℤ)

/-- Whether every character is a decimal digit. -/
def all_digits (ds : List Char) : Bool := ds.all Char.isDigit

/-- Python `int(s)` on the signed decimal-literal subset used by record id
fields: an optional sign followed by one or more digits; anything else is a
`ValueError`, modelled as `none`. -/
def parseInt? (s : List Char) : Option ℤ :=
  match s with
  | '-' :: rest => if rest ≠ [] ∧ all_digits rest then some (-(digitsValN rest : ℤ)) else none
  | '+' :: rest => if rest ≠ [] ∧ all_digits rest then some ((digitsValN rest : ℤ)) else none
  | _ => if s ≠ [] ∧ all_digits s then some ((digitsValN s : ℤ)) else none

/-- Unsigned decimal literal with an optional fractional part, as an exact
rational; used to model Python `float(...)` on the result fields. -/
def parseDecimal? (body : List Char) : Option ℚ :=
  match split_on_char '.' body with
  | [ip] => if ip ≠ [] ∧ all_digits ip then some ((digitsValN ip : ℚ)) else none
  | [ip, fp] =>
    if (ip ≠ [] ∨ fp ≠ []) ∧ all_digits ip ∧ all_digits fp then
      some ((digitsValN ip : ℚ) + (digitsValN fp : ℚ) / (10 : ℚ) ^ fp.length)
    else none
  | _ => none

/-- Python `float(s)` on the signed decimal-literal subset used by the
result fields of ACPC records; failure (`ValueError`) is `none`. -/
def parseFloat? (s : List Char) : Option ℚ :=
  match s with
  | '-' :: rest => (parseDecimal? rest).map (fun q => -q)
  | '+' :: rest => parseDecimal? rest
  | _ => parseDecimal? s

/-- Failure modes of `process_line`.  The first, third, fifth, sixth and
eighth constructors correspond to the five `raise Exception(...)` checks of
the source; `badHandNumber`, `badResult` and `badCards` model respectively
the `ValueError` of `int(...)`, the `ValueError` of `float(...)` and the
`IndexError` of `cards[1]` / `cards[2]`, all of which the source can also
raise while parsing. -/
inductive PErr
  | malformedRecord
  | badHandNumber
  | unsupportedPlayerCount
  | badResult
  | inconsistentResults
  | invalidStreetCount
  | badCards
  | inconsistentStreets
deriving DecidableEq

/-- The tuple returned by `process_line` in the source. -/
structure ProcessedLine where
  hand_number : ℤ
  actions_by_round : List (List Char)
  hole_cards : List (List Char)
  board_cards : List (List Char)
  results : List ℚ
  players : List (List Char)
deriving DecidableEq

/-- Embedding of `process_line` (source lines 104-157): split on `:`require
6 fields, parse the id, split players on `|` requiring 2 or 3, parse the
results as floats requiring one per player, split streets on `/` requiring
1 to 4, extract hole and board cards, and require streets = board groups + 1.
The checks appear in exactly the source's order. -/
def process_line (hand_history : List Char) : Except PErr ProcessedLine :=
  match split_on_char ':' hand_history with
  | [_, f1, f2, f3, f4, f5] =>
    match parseInt? f1 with
    | none => Except.error PErr.badHandNumber
    | some hand_number =>
      let players := split_on_char '|' f5
      if 3 < players.length ∨ players.length < 2 then Except.error PErr.unsupportedPlayerCount
      else
        match (split_on_char '|' f4).mapM parseFloat? with
        | none => Except.error PErr.badResult
        | some results =>
          if results.length ≠ players.length then Except.error PErr.inconsistentResults
          else
            let actions_by_round := split_on_char '/' f2
            if actions_by_round.length < 1 ∨ 4 < actions_by_round.length then
              Except.error PErr.invalidStreetCount
            else
              let cards := split_on_char '|' f3
              let finish := fun (hole_pre : List (List Char)) (lastGroup : List Char) =>
                let cards_last := split_on_char '/' lastGroup
                let hole_cards := hole_pre ++ [cards_last.headD []]
                let board_cards := cards_last.drop 1
                if actions_by_round.length ≠ board_cards.length + 1 then
                  Except.error PErr.inconsistentStreets
                else
                  Except.ok ⟨hand_number, actions_by_round, hole_cards, board_cards,
                             results, players⟩
              if players.length = 2 then
                match cards with
                | c0 :: c1 :: _ => finish [c0] c1
                | _ => Except.error PErr.badCards
              else
                match cards with
                | c0 :: c1 :: c2 :: _ => finish [c0, c1] c2
                | _ => Except.error PErr.badCards
  | _ => Except.error PErr.malformedRecord

/-- Position table built in `create_header` (source lines 201-215). -/
structure Positions where
  utg : ℕ
  button : ℕ
  small_blind : ℕ
  big_blind : ℕ
deriving DecidableEq

/-- Heads-up uses reversed blinds (button = small blind = seat 1); three
handed play has small blind 0, big blind 1, button = utg = last seat. -/
def positions_for (n : ℕ) : Positions :=
  if n = 2 then ⟨1, 1, 1, 0⟩ else ⟨2, n - 1, 0, 1⟩

/-- Game type selector (`'L'` or `'N'` in the source). -/
inductive GameType
  | limit
  | noLimit
deriving DecidableEq

/-- One entry of `actions_this_round` in the source: a one-character action,
or a raise together with the absolute target parsed after `r` (no-limit).
Limit-mode `r` tokens carry no size; they are embedded as `raise 0` and the
executor never reads the size in limit mode.  Characters other than
`f`/`c`/`r` fall through every branch of the executor and only advance the
actor pointer; they are kept as `skip`. -/
inductive RawAction
  | fold
  | checkcall
  | raise (bet : ℤ)
  | skip (c : Char)
deriving DecidableEq, Repr

/-- Classification of a non-`r` character by the executor's `if` chain. -/
def charAction (c : Char) : RawAction :=
  if c = 'f' then RawAction.fold
  else if c = 'c' then RawAction.checkcall
  else RawAction.skip c

/-- Limit-mode tokenization (source lines 305-307): every character is one
action. -/
def tokenize_limit (s : List Char) : List RawAction :=
  s.map (fun c => if c = 'r' then RawAction.raise 0 else charAction c)

/-- Fuel-indexed no-limit tokenizer; see `tokenize_nl`.  Mirrors the index
scan of source lines 308-321: a non-`r` character is one action; after an
`r` the inner `while actions_by_round[round][i].isdigit()` consumes the
maximal digit run into one accumulated integer, and tests `s[i]` at
position `len(s)` — an `IndexError` — whenever that run reaches the end of
the string (`none` here).  Each step consumes at least one character, so
`fuel = length + 1` never runs out. -/
def tok_nl (fuel : ℕ) : List Char → Option (List RawAction) :=
  match fuel with
  | 0 => fun _ => none
  | fuel + 1 => fun s =>
    match s with
    | [] => some []
    | c :: rest =>
      if c = 'r' then
        let ds := rest.takeWhile Char.isDigit
        if ds.length = rest.length then none
        else
          match tok_nl fuel (rest.drop ds.length) with
          | none => none
          | some ts => some (RawAction.raise (digits_val ds) :: ts)
      else
        match tok_nl fuel rest with
        | none => none
        | some ts => some (charAction c :: ts)

/-- No-limit tokenization of one street string. -/
def tokenize_nl (s : List Char) : Option (List RawAction) := tok_nl (s.length + 1) s

/-- Tokenization dispatch on game type (source lines 305-321). -/
def tokenize (gt : GameType) (s : List Char) : Option (List RawAction) :=
  match gt with
  | GameType.limit => some (tokenize_limit s)
  | GameType.noLimit => tokenize_nl s

/-- Action events emitted while replaying a street (the `output_string`
lines of source lines 366-396, keeping the printed amounts). -/
inductive Event
  | folds (p : ℕ)
  | checks (p : ℕ)
  | calls (p : ℕ) (amount : ℤ)
  | raisesTo (p : ℕ) (amount : ℤ) (total : ℤ)
  | bets (p : ℕ) (amount : ℤ)
deriving DecidableEq

/-- Bounded search for the next unfolded player.  The source's
`while not players_in_hand[current_player]: current_player = (current_player + 1) % len(players)`
visits `start, start + 1, ...` modulo `n`; the visit sequence is periodic
with period `n = pih.length`, so the loop terminates iff it finds an
unfolded player within `n` steps.  `none` therefore models the source loop
running forever. -/
def find_aux (pih : List Bool) : ℕ → ℕ → Option ℕ
  | 0, _ => none
  | fuel + 1, p =>
    if pih.getD (p % pih.length) false = true then some (p % pih.length)
    else find_aux pih fuel (p + 1)

/-- Next unfolded player at or after `start` (wrapping); `none` iff the
source's skip loop would never terminate. -/
def find_in_hand (pih : List Bool) (start : ℕ) : Option ℕ :=
  find_aux pih pih.length start

/-- Mutable state of one street's replay loop (source lines 323-402):
fold flags, per-player contribution this street, street bet level, last
bet increment, actor pointer. -/
structure StState where
  pih : List Bool
  w_round : List ℤ
  bet_round : ℤ
  cur_bet : ℤ
  cur_pl : ℕ
deriving DecidableEq

/-- One iteration of the action loop (source lines 354-402): find the
acting player by skipping folded seats, compute
`amountToCall = bet_this_round - wagered_this_round[p]`, execute the
action, then advance the pointer one seat and skip folded seats again.
`none` models either skip loop running forever. -/
def exec_action (gt : GameType) (round : ℕ) (wagered_total : List ℤ)
    (a : RawAction) (st : StState) : Option (List Event × StState) :=
  match find_in_hand st.pih st.cur_pl with
  | none => none
  | some p =>
    match a with
    | RawAction.fold =>
      match find_in_hand (st.pih.set p false) (p + 1) with
      | none => none
      | some q =>
        some ([Event.folds p], ⟨st.pih.set p false, st.w_round, st.bet_round, st.cur_bet, q⟩)
    | RawAction.checkcall =>
      match find_in_hand st.pih (p + 1) with
      | none => none
      | some q =>
        let owed := st.bet_round - st.w_round.getD p 0
        if owed = 0 then
          some ([Event.checks p], ⟨st.pih, st.w_round, st.bet_round, st.cur_bet, q⟩)
        else
          some ([Event.calls p owed],
            ⟨st.pih, st.w_round.set p (st.w_round.getD p 0 + owed), st.bet_round, st.cur_bet, q⟩)
    | RawAction.raise tgt =>
      match find_in_hand st.pih (p + 1) with
      | none => none
      | some q =>
        let owed := st.bet_round - st.w_round.getD p 0
        let inc := if gt = GameType.noLimit then
            tgt - wagered_total.getD p 0 - st.w_round.getD p 0 - owed
          else st.cur_bet
        some ([if 0 < owed ∨ round = 0 then
                 Event.raisesTo p (owed + inc) (st.bet_round + inc)
               else Event.bets p inc],
          ⟨st.pih, st.w_round.set p (st.w_round.getD p 0 + (owed + inc)),
           st.bet_round + inc, inc, q⟩)
    | RawAction.skip _ =>
      match find_in_hand st.pih (p + 1) with
      | none => none
      | some q => some ([], ⟨st.pih, st.w_round, st.bet_round, st.cur_bet, q⟩)

/-- Replay of all actions of one street, in order. -/
def run_street (gt : GameType) (round : ℕ) (wagered_total : List ℤ) :
    List RawAction → StState → Option (List Event × StState)
  | [], st => some ([], st)
  | a :: as, st =>
    match exec_action gt round wagered_total a st with
    | none => none
    | some (evs, st1) =>
      match run_street gt round wagered_total as st1 with
      | none => none
      | some (evs1, st2) => some (evs ++ evs1, st2)

/-- Street setup (source lines 326-351): preflop seeds the blinds into the
street contributions, sets the street bet level to the big blind and starts
at utg; later streets start at the big blind (heads-up) or small blind
(three-handed) with an empty pot and zero bet level.  The default increment
is the big blind preflop/flop and twice it turn/river in limit play; in
no-limit play it is the big blind preflop and zero afterwards. -/
def street_init (gt : GameType) (bb : ℤ) (n : ℕ) (pos : Positions) (round : ℕ)
    (pih : List Bool) : StState :=
  if round = 0 then
    { pih := pih
      w_round := ((List.replicate n (0 : ℤ)).set pos.small_blind (bb / 2)).set pos.big_blind bb
      bet_round := bb
      cur_bet := bb
      cur_pl := pos.utg }
  else
    { pih := pih
      w_round := List.replicate n (0 : ℤ)
      bet_round := 0
      cur_bet := if gt = GameType.limit then (if round = 1 then bb else 2 * bb) else 0
      cur_pl := if n = 2 then pos.big_blind else pos.small_blind }

/-- Hand-level state accumulated across streets: fold flags, cumulative
wagered totals, the last street's final bet increment and actor pointer
(the `showdown_state` tuple of source line 407), plus the emitted events. -/
structure HandSt where
  pih : List Bool
  wagered_total : List ℤ
  current_bet : ℤ
  current_player : ℕ
  events : List Event
deriving DecidableEq

/-- Replay of one street starting from the accumulated hand state; street
contributions are folded into the cumulative totals afterwards (source
lines 404-405). -/
def run_round (gt : GameType) (bb : ℤ) (n : ℕ) (pos : Positions) (round : ℕ)
    (tokens : List RawAction) (hs : HandSt) : Option HandSt :=
  match run_street gt round hs.wagered_total tokens (street_init gt bb n pos round hs.pih) with
  | none => none
  | some (evs, st1) =>
    some { pih := st1.pih
           wagered_total := List.zipWith (· + ·) hs.wagered_total st1.w_round
           current_bet := st1.cur_bet
           current_player := st1.cur_pl
           events := hs.events ++ evs }

/-- Replay of the remaining streets, numbered from `round`. -/
def run_rounds (gt : GameType) (bb : ℤ) (n : ℕ) (pos : Positions) :
    ℕ → List (List RawAction) → HandSt → Option HandSt
  | _, [], hs => some hs
  | round, tokens :: rest, hs =>
    match run_round gt bb n pos round tokens hs with
    | none => none
    | some hs1 => run_rounds gt bb n pos (round + 1) rest hs1

/-- Embedding of `create_actions` (source lines 243-410) on pre-tokenized
streets: all players start unfolded with zero wagered. -/
def create_actions (gt : GameType) (bb : ℤ) (n : ℕ) (pos : Positions)
    (rounds : List (List RawAction)) : Option HandSt :=
  run_rounds gt bb n pos 0 rounds ⟨List.replicate n true, List.replicate n (0 : ℤ), 0, 0, []⟩

/-- Round-half-to-even on a rational, as Python's `round` ties-to-even. -/
def round_half_even (q : ℚ) : ℤ :=
  if q - ⌊q⌋ < 1 / 2 then ⌊q⌋
  else if 1 / 2 < q - ⌊q⌋ then ⌊q⌋ + 1
  else if ⌊q⌋ % 2 = 0 then ⌊q⌋ else ⌊q⌋ + 1

/-- Python `round(q, 2)`: round to two decimal places, ties to even. -/
def round2 (q : ℚ) : ℚ := (round_half_even (q * 100) : ℚ) / 100

/-- The `winners` list of `award_pot` (source lines 450-453): every player
index with a strictly positive recorded net result, in seat order, folded
or not. -/
def winners_of (results : List ℚ) (n : ℕ) : List ℕ :=
  (List.range n).filter (fun i => 0 < results.getD i 0)

/-- Observable outcome of `award_pot`: the pot before and after any
uncalled-bet deduction, the showdown display order, the `collected $ from
pot` lines and the uncalled-bet return line. -/
structure Outcome where
  pot_total : ℤ
  pot_awarded : ℤ
  shown : List ℕ
  collections : List (ℕ × ℚ)
  uncalled : Option (ℤ × ℕ)
deriving DecidableEq

/-- Embedding of `award_pot` (source lines 412-503).  With at least two
unfolded players: the showdown lists unfolded players from the final actor
pointer onward; one positive-result player collects the whole pot, two each
collect `round(pot/2, 2)`, otherwise all three players collect the exact
unrounded `pot/3` when three remain, and failing that the small and big
blinds each collect `round(pot/2, 2)`.  With at most one unfolded player:
`current_bet` is unconditionally removed from the pot and reported as
returned to `winners[0]`, who collects the remainder; when `winners` is
empty the `winners[0]` access is an `IndexError`, modelled as `none`. -/
def award_pot (n : ℕ) (pos : Positions) (results : List ℚ) (pih : List Bool)
    (wagered_total : List ℤ) (current_bet : ℤ) (current_player : ℕ) : Option Outcome :=
  let players_left := pih.count true
  let pot := wagered_total.sum
  let winners := winners_of results n
  if 1 < players_left then
    let shown := (List.range n).filterMap (fun i =>
      if pih.getD ((current_player + i) % n) false = true then
        some ((current_player + i) % n)
      else none)
    let collections :=
      if winners.length = 1 then winners.map (fun i => (i, (pot : ℚ)))
      else if winners.length = 2 then winners.map (fun i => (i, round2 ((pot : ℚ) / 2)))
      else if players_left = 3 then (List.range n).map (fun i => (i, (pot : ℚ) / 3))
      else [(pos.small_blind, round2 ((pot : ℚ) / 2)), (pos.big_blind, round2 ((pot : ℚ) / 2))]
    some ⟨pot, pot, shown, collections, none⟩
  else
    match winners with
    | [] => none
    | w :: _ =>
      some ⟨pot, pot - current_bet, [], [(w, ((pot - current_bet : ℤ) : ℚ))],
            some (current_bet, w)⟩

/-- Pipeline up to the end of the betting replay: parse, tokenize every
street, and run `create_actions`. -/
def run_to_showdown (gt : GameType) (bb : ℤ) (record : List Char) :
    Option (ProcessedLine × HandSt) :=
  match process_line record with
  | Except.error _ => none
  | Except.ok pl =>
    match pl.actions_by_round.mapM (tokenize gt) with
    | none => none
    | some rounds =>
      match create_actions gt bb pl.players.length (positions_for pl.players.length) rounds with
      | none => none
      | some hs => some (pl, hs)

/-- Observable result of processing one record end to end: the blind posts
printed by `create_header`, the final fold flags and wagered totals, and
the `award_pot` outcome. -/
structure HandOutcome where
  sb_post : ℤ
  bb_post : ℤ
  pih : List Bool
  wagered_total : List ℤ
  outcome : Outcome
deriving DecidableEq

/-- Full pipeline for one record (the per-line body of `main`). -/
def run_hand (gt : GameType) (bb : ℤ) (record : List Char) : Option HandOutcome :=
  match run_to_showdown gt bb record with
  | none => none
  | some (pl, hs) =>
    match award_pot pl.players.length (positions_for pl.players.length) pl.results
        hs.pih hs.wagered_total hs.current_bet hs.current_player with
    | none => none
    | some oc => some ⟨bb / 2, bb, hs.pih, hs.wagered_total, oc⟩

/-- Number of fold events in an event stream. -/
def fold_count (evs : List Event) : ℕ :=
  (evs.filter (fun e => match e with | Event.folds _ => true | _ => false)).length

/-- The winner set exactly as the claim under test words it: the players
with strictly positive net result, or, when there are none, all unfolded
players. -/
def claim_winners (results : List ℚ) (pih : List Bool) (n : ℕ) : List ℕ :=
  if winners_of results n ≠ [] then winners_of results n
  else (List.range n).filter (fun i => pih.getD i false = true)

/-- Spec-side validation predicates for `process_line`, phrased directly on
the raw record. -/
def fields_of (h : List Char) : List (List Char) := split_on_char ':' h

/-- Validation condition 1: the colon-delimited field count differs from 6. -/
abbrev cond_field_count (h : List Char) : Prop := (fields_of h).length ≠ 6

/-- The `|`-split of the names field. -/
def players_field (h : List Char) : List (List Char) :=
  split_on_char '|' ((fields_of h).getD 5 [])

/-- Validation condition 2: the player count is outside two to three. -/
abbrev cond_player_count (h : List Char) : Prop :=
  3 < (players_field h).length ∨ (players_field h).length < 2

/-- The `|`-split of the results field. -/
def results_field (h : List Char) : List (List Char) :=
  split_on_char '|' ((fields_of h).getD 4 [])

/-- Validation condition 3: the results count differs from the player count. -/
abbrev cond_result_count (h : List Char) : Prop :=
  (results_field h).length ≠ (players_field h).length

/-- The `/`-split of the actions field. -/
def streets_field (h : List Char) : List (List Char) :=
  split_on_char '/' ((fields_of h).getD 2 [])

/-- Validation condition 4: the street count is outside one to four. -/
abbrev cond_street_count (h : List Char) : Prop :=
  (streets_field h).length < 1 ∨ 4 < (streets_field h).length

/-- The `|`-split of the cards field. -/
def card_field (h : List Char) : List (List Char) :=
  split_on_char '|' ((fields_of h).getD 3 [])

/-- Number of board-card groups: the final hole-card group is `/`-split and
everything after its first entry is board cards. -/
def board_group_count (h : List Char) : ℕ :=
  (split_on_char '/'
    ((card_field h).getD (if (players_field h).length = 2 then 1 else 2) [])).length - 1

/-- Validation condition 5: street count differs from board groups plus one. -/
abbrev cond_street_board (h : List Char) : Prop :=
  (streets_field h).length ≠ board_group_count h + 1

/-- Correction: the id field must parse as an integer (`int` ValueError). -/
abbrev id_ok (h : List Char) : Prop := (parseInt? ((fields_of h).getD 1 [])).isSome = true

/-- Correction: every result field must parse as a float (`float`
ValueError). -/
abbrev results_ok (h : List Char) : Prop :=
  ((results_field h).mapM parseFloat?).isSome = true

/-- Correction: the cards field must have at least as many `|`-groups as
there are players (else `cards[1]` / `cards[2]` is an `IndexError`). -/
abbrev cards_ok (h : List Char) : Prop :=
  (players_field h).length ≤ (card_field h).length

/-- Heads-up limit fixture of the spec (claim C6). -/
def rec_c6 : List Char := "STATE:1:cc/cc/cc/cc:AhKs|QdQc/2h2c2d/3s/4h:1.0|-1.0:P1|P2".toList

/-- Three-handed record in which the small blind folds and no result is
positive (claim C1). -/
def rec_c1 : List Char :=
  "STATE:5:cfc/cc/cc/cc:AhKs|QdQc|JsJh/2h2c2d/3s/4h:0.0|0.0|0.0:P1|P2|P3".toList

/-- Heads-up record in which the big blind folds after its blind was fully
called (claim C2). -/
def rec_c2 : List Char := "STATE:2:cf:AhKs|QdQc:-1.0|1.0:P1|P2".toList

/-- Heads-up record in which both players fold (claim C4). -/
def rec_c4 : List Char := "STATE:4:ff:AhKs|QdQc:-1.0|1.0:P1|P2".toList

/-- Record whose cards field has a single `|`-group (claim C7). -/
def rec_c7 : List Char := "STATE:1:cc:AhKs:1.0|-1.0:P1|P2".toList

/-- Well-formed single-street heads-up record (claim C7's witness). -/
def rec_c7b : List Char := "STATE:1:cc:AhKs|QdQc:1.0|-1.0:P1|P2".toList

/-- Uncontested record in which no recorded result is positive (claim C10). -/
def rec_c10 : List Char := "STATE:3:cf:AhKs|QdQc:0.0|0.0:P1|P2".toList

end ACPC

deriving instance DecidableEq for Except

namespace ACPC

/-! Helper lemmas. -/

/-- A successful bounded actor scan returns an index of an unfolded player. -/
theorem find_aux_some {pih : List Bool} {fuel s p : ℕ}
    (h : find_aux pih fuel s = some p) :
    p < pih.length ∧ pih.getD p false = true := by
  induction fuel generalizing s with
  | zero => simp [find_aux] at h
  | succ f ih =>
    rw [find_aux] at h
    by_cases hg : pih.getD (s % pih.length) false = true
    · rw [if_pos hg] at h
      cases h
      refine ⟨?_, hg⟩
      rcases Nat.eq_zero_or_pos pih.length with h0 | hpos
      · rw [List.length_eq_zero] at h0
        subst h0
        simp [List.getD] at hg
      · exact Nat.mod_lt _ hpos
    · rw [if_neg hg] at h
      exact ih h

/-- A successful actor scan returns an index of an unfolded player. -/
theorem find_in_hand_some {pih : List Bool} {s p : ℕ}
    (h : find_in_hand pih s = some p) :
    p < pih.length ∧ pih.getD p false = true :=
  find_aux_some h

/-- Clearing a set flag drops the true-count by one. -/
theorem count_true_set_false {l : List Bool} {p : ℕ}
    (hp : p < l.length) (ht : l.getD p false = true) :
    (l.set p false).count true + 1 = l.count true := by
  induction l generalizing p with
  | nil => simp at hp
  | cons b bs ih =>
    cases p with
    | zero =>
      simp only [List.getD_cons_zero] at ht
      subst ht
      simp [List.count_cons]
    | succ q =>
      simp only [List.length_cons, Nat.succ_lt_succ_iff] at hp
      simp only [List.getD_cons_succ] at ht
      simp only [List.set_cons_succ, List.count_cons]
      have := ih hp ht
      omega

/-- Fold events in a concatenation add up. -/
theorem fold_count_append (a b : List Event) :
    fold_count (a ++ b) = fold_count a + fold_count b := by
  simp [fold_count, List.filter_append]

/-- One action preserves `fold events so far + unfolded players`, and the
seat-count. -/
theorem exec_action_count {gt : GameType} {round : ℕ} {wt : List ℤ}
    {a : RawAction} {st : StState} {evs : List Event} {st1 : StState}
    (h : exec_action gt round wt a st = some (evs, st1)) :
    fold_count evs + st1.pih.count true = st.pih.count true ∧
      st1.pih.length = st.pih.length := by
  unfold exec_action at h
  cases hf : find_in_hand st.pih st.cur_pl with
  | none =>
    simp only [hf] at h
    exact Option.noConfusion h
  | some p =>
    obtain ⟨hp, hpt⟩ := find_in_hand_some hf
    cases a with
    | fold =>
      cases hf2 : find_in_hand (st.pih.set p false) (p + 1) with
      | none =>
        simp only [hf, hf2] at h
        exact Option.noConfusion h
      | some q =>
        simp only [hf, hf2, Option.some.injEq, Prod.mk.injEq] at h
        obtain ⟨h1, h2⟩ := h
        subst h1
        subst h2
        have hc := count_true_set_false hp hpt
        refine ⟨?_, by simp⟩
        simp only [fold_count, List.filter, List.length_cons, List.length_nil]
        omega
    | checkcall =>
      cases hf2 : find_in_hand st.pih (p + 1) with
      | none =>
        simp only [hf, hf2] at h
        exact Option.noConfusion h
      | some q =>
        simp only [hf, hf2] at h
        split at h <;>
          (simp only [Option.some.injEq, Prod.mk.injEq] at h
           obtain ⟨h1, h2⟩ := h
           subst h1
           subst h2
           simp [fold_count])
    | raise tgt =>
      cases hf2 : find_in_hand st.pih (p + 1) with
      | none =>
        simp only [hf, hf2] at h
        exact Option.noConfusion h
      | some q =>
        simp only [hf, hf2, Option.some.injEq, Prod.mk.injEq] at h
        obtain ⟨h1, h2⟩ := h
        subst h1
        subst h2
        refine ⟨?_, by simp⟩
        split <;> simp [fold_count]
    | skip c =>
      cases hf2 : find_in_hand st.pih (p + 1) with
      | none =>
        simp only [hf, hf2] at h
        exact Option.noConfusion h
      | some q =>
        simp only [hf, hf2, Option.some.injEq, Prod.mk.injEq] at h
        obtain ⟨h1, h2⟩ := h
        subst h1
        subst h2
        simp [fold_count]

/-- A whole street preserves `fold events + unfolded players` and the
seat-count. -/
theorem run_street_count {gt : GameType} {round : ℕ} {wt : List ℤ} :
    ∀ {acts : List RawAction} {st : StState} {evs : List Event} {st1 : StState},
      run_street gt round wt acts st = some (evs, st1) →
      fold_count evs + st1.pih.count true = st.pih.count true ∧
        st1.pih.length = st.pih.length := by
  intro acts
  induction acts with
  | nil =>
    intro st evs st1 h
    rw [run_street] at h
    injection h with h2
    cases h2
    simp [fold_count]
  | cons a as ih =>
    intro st evs st1 h
    rw [run_street] at h
    cases he : exec_action gt round wt a st with
    | none =>
      simp only [he] at h
      exact Option.noConfusion h
    | some r =>
      obtain ⟨evs0, st0⟩ := r
      cases hr : run_street gt round wt as st0 with
      | none =>
        simp only [he, hr] at h
        exact Option.noConfusion h
      | some r1 =>
        obtain ⟨evs1, st2⟩ := r1
        simp only [he, hr, Option.some.injEq, Prod.mk.injEq] at h
        obtain ⟨h1, h2⟩ := h
        subst h1
        subst h2
        obtain ⟨hc0, hl0⟩ := exec_action_count he
        obtain ⟨hc1, hl1⟩ := ih hr
        rw [fold_count_append]
        constructor
        · omega
        · rw [hl1, hl0]

/-- Street setup never touches the fold flags. -/
theorem street_init_pih (gt : GameType) (bb : ℤ) (n : ℕ) (pos : Positions)
    (round : ℕ) (pih : List Bool) :
    (street_init gt bb n pos round pih).pih = pih := by
  unfold street_init
  split <;> rfl

/-- One street of the hand loop preserves the invariant. -/
theorem run_round_count {gt : GameType} {bb : ℤ} {n : ℕ} {pos : Positions}
    {round : ℕ} {tokens : List RawAction} {hs hs1 : HandSt}
    (h : run_round gt bb n pos round tokens hs = some hs1) :
    fold_count hs1.events + hs1.pih.count true =
      fold_count hs.events + hs.pih.count true ∧
      hs1.pih.length = hs.pih.length := by
  unfold run_round at h
  cases hr : run_street gt round hs.wagered_total tokens
      (street_init gt bb n pos round hs.pih) with
  | none =>
    simp only [hr] at h
    exact Option.noConfusion h
  | some r =>
    obtain ⟨evs, st1⟩ := r
    simp only [hr, Option.some.injEq] at h
    subst h
    obtain ⟨hc, hl⟩ := run_street_count hr
    rw [street_init_pih] at hc hl
    simp only [fold_count_append]
    constructor
    · omega
    · exact hl

/-- The remaining streets preserve the invariant. -/
theorem run_rounds_count {gt : GameType} {bb : ℤ} {n : ℕ} {pos : Positions} :
    ∀ {rounds : List (List RawAction)} {round : ℕ} {hs hs1 : HandSt},
      run_rounds gt bb n pos round rounds hs = some hs1 →
      fold_count hs1.events + hs1.pih.count true =
        fold_count hs.events + hs.pih.count true := by
  intro rounds
  induction rounds with
  | nil =>
    intro round hs hs1 h
    rw [run_rounds] at h
    injection h with h2
    cases h2
    rfl
  | cons tokens rest ih =>
    intro round hs hs1 h
    rw [run_rounds] at h
    cases hr : run_round gt bb n pos round tokens hs with
    | none =>
      simp only [hr] at h
      exact Option.noConfusion h
    | some hs0 =>
      simp only [hr] at h
      have h1 := ih h
      have h2 := run_round_count hr
      omega

/-- Rounding an integer to two decimals is the identity. -/
theorem round_half_even_intCast (z : ℤ) : round_half_even ((z : ℚ)) = z := by
  unfold round_half_even
  rw [Int.floor_intCast]
  norm_num

/-- Half an integer pot is exactly representable with two decimals, so
Python's `round(pot / 2, 2)` returns it unchanged. -/
theorem round2_int_half (z : ℤ) : round2 ((z : ℚ) / 2) = (z : ℚ) / 2 := by
  unfold round2
  have h : ((z : ℚ) / 2) * 100 = ((z * 50 : ℤ) : ℚ) := by push_cast; ring
  rw [h, round_half_even_intCast]
  push_cast
  ring

/-- A list of digits is taken whole by `takeWhile`. -/
theorem takeWhile_all_digits (ds : List Char) (hds : ∀ d ∈ ds, d.isDigit = true) :
    ds.takeWhile Char.isDigit = ds := by
  induction ds with
  | nil => rfl
  | cons d rest ih =>
    rw [List.takeWhile_cons, if_pos (hds d (by simp))]
    rw [ih (fun x hx => hds x (by simp [hx]))]

/-- The maximal digit run of `digits ++ non-digit :: rest` is the digits. -/
theorem takeWhile_digits_append (ds : List Char) (c : Char) (rest : List Char)
    (hds : ∀ d ∈ ds, d.isDigit = true) (hc : c.isDigit = false) :
    (ds ++ c :: rest).takeWhile Char.isDigit = ds := by
  induction ds with
  | nil =>
    simp only [List.nil_append, List.takeWhile_cons]
    rw [if_neg (by simp [hc])]
  | cons d ds ih =>
    rw [List.cons_append, List.takeWhile_cons, if_pos (hds d (by simp))]
    rw [ih (fun x hx => hds x (by simp [hx]))]

/-- A `takeWhile` prefix is never longer than the list. -/
theorem takeWhile_le_length (p : Char → Bool) :
    ∀ l : List Char, (l.takeWhile p).length ≤ l.length := by
  intro l
  induction l with
  | nil => simp
  | cons a l ih =>
    rw [List.takeWhile_cons]
    by_cases hpa : p a = true
    · rw [if_pos hpa]
      simpa using Nat.succ_le_succ ih
    · rw [if_neg hpa]
      simp

/-- The tokenizer's fuel is irrelevant as long as it exceeds the input
length: `tok_nl` consumes at least one character per step. -/
theorem tok_nl_fuel_eq (f : ℕ) : ∀ (g : ℕ) (s : List Char),
    s.length < f → s.length < g → tok_nl f s = tok_nl g s := by
  induction f with
  | zero =>
    intro g s hf _
    exact absurd hf (Nat.not_lt_zero _)
  | succ f ih =>
    intro g s hf hg
    cases g with
    | zero => exact absurd hg (Nat.not_lt_zero _)
    | succ g =>
      cases s with
      | nil => rfl
      | cons c rest =>
        simp only [tok_nl]
        by_cases hc : c = 'r'
        · rw [if_pos hc, if_pos hc]
          by_cases hlen : (rest.takeWhile Char.isDigit).length = rest.length
          · rw [if_pos hlen, if_pos hlen]
          · rw [if_neg hlen, if_neg hlen]
            have hle : (rest.takeWhile Char.isDigit).length ≤ rest.length :=
              takeWhile_le_length Char.isDigit rest
            have hdl : (rest.drop (rest.takeWhile Char.isDigit).length).length =
                rest.length - (rest.takeWhile Char.isDigit).length := List.length_drop _ _
            simp only [List.length_cons] at hf hg
            rw [ih g (rest.drop (rest.takeWhile Char.isDigit).length)
              (by omega) (by omega)]
        · rw [if_neg hc, if_neg hc]
          simp only [List.length_cons] at hf hg
          rw [ih g rest (by omega) (by omega)]

/-- Successful `mapM` over `Option` preserves length. -/
theorem mapM_length_option {α β : Type} (f : α → Option β) :
    ∀ {l : List α} {r : List β}, l.mapM f = some r → r.length = l.length := by
  intro l
  induction l with
  | nil =>
    intro r h
    simp only [List.mapM_nil, pure, Option.some.injEq] at h
    subst h
    rfl
  | cons a as ih =>
    intro r h
    rw [List.mapM_cons] at h
    cases hfa : f a with
    | none => rw [hfa] at h; simp at h
    | some b =>
      rw [hfa] at h
      cases hmas : as.mapM f with
      | none => rw [hmas] at h; simp at h
      | some bs =>
        rw [hmas] at h
        simp only [bind, Option.bind, pure, Option.some.injEq] at h
        subst h
        simp [ih hmas]

/-! Claim theorems. -/

/-- Claim C1 (corrected): at showdown (more than one unfolded player) no
uncalled bet is returned and the whole pot stays in play; the positive
result players collect when there are one or two of them — a sole winner
collects the whole pot and two winners collect exactly half each, the
two-decimal rounding being exact there — but when the positive-result set
has any other size the collectors are all three seats (each with the
unrounded `pot / 3`) if three players remain unfolded, and otherwise the
small and big blinds (each with half the pot), regardless of which players
are actually unfolded. -/
theorem award_pot_showdown_split (n : ℕ) (pos : Positions) (results : List ℚ)
    (pih : List Bool) (wt : List ℤ) (cb : ℤ) (cp : ℕ)
    (hshow : 1 < pih.count true) :
    (award_pot n pos results pih wt cb cp).map Outcome.uncalled = some none ∧
    (award_pot n pos results pih wt cb cp).map Outcome.pot_awarded = some wt.sum ∧
    (award_pot n pos results pih wt cb cp).map Outcome.collections = some
      (if (winners_of results n).length = 1 then
         (winners_of results n).map (fun i => (i, ((wt.sum : ℤ) : ℚ)))
       else if (winners_of results n).length = 2 then
         (winners_of results n).map (fun i => (i, (wt.sum : ℚ) / 2))
       else if pih.count true = 3 then
         (List.range n).map (fun i => (i, (wt.sum : ℚ) / 3))
       else [(pos.small_blind, (wt.sum : ℚ) / 2), (pos.big_blind, (wt.sum : ℚ) / 2)]) := by
  simp only [award_pot]
  rw [if_pos hshow]
  refine ⟨rfl, rfl, ?_⟩
  show some _ = some _
  congr 1
  split_ifs <;> first
    | rfl
    | simp only [round2_int_half]

/-- Witness for `award_pot_showdown_split` at a concrete heads-up showdown. -/
theorem award_pot_showdown_split_witness :
    1 < ([true, true] : List Bool).count true ∧
    ((award_pot 2 (positions_for 2) [1, -1] [true, true] [10, 10] 10 0).map
        Outcome.uncalled = some none ∧
     (award_pot 2 (positions_for 2) [1, -1] [true, true] [10, 10] 10 0).map
        Outcome.pot_awarded = some ([10, 10] : List ℤ).sum ∧
     (award_pot 2 (positions_for 2) [1, -1] [true, true] [10, 10] 10 0).map
        Outcome.collections = some
       (if (winners_of [1, -1] 2).length = 1 then
          (winners_of [1, -1] 2).map (fun i => (i, ((([10, 10] : List ℤ).sum : ℤ) : ℚ)))
        else if (winners_of [1, -1] 2).length = 2 then
          (winners_of [1, -1] 2).map (fun i => (i, ((([10, 10] : List ℤ).sum : ℤ) : ℚ) / 2))
        else if ([true, true] : List Bool).count true = 3 then
          (List.range 2).map (fun i => (i, ((([10, 10] : List ℤ).sum : ℤ) : ℚ) / 3))
        else [((positions_for 2).small_blind, ((([10, 10] : List ℤ).sum : ℤ) : ℚ) / 2),
              ((positions_for 2).big_blind, ((([10, 10] : List ℤ).sum : ℤ) : ℚ) / 2)])) :=
  ⟨by decide, award_pot_showdown_split 2 (positions_for 2) [1, -1] [true, true] [10, 10] 10 0
    (by decide)⟩

/-- Counterexample for claim C1: in `rec_c1` the small blind folds and all
results are zero; at showdown the collectors are players 0 and 1 — player 0
being folded — while the claim's winner set (all unfolded players, as no
result is positive) is players 1 and 2. -/
theorem award_pot_chop_counterexample :
    (run_hand GameType.limit 10 rec_c1).map
        (fun ho => (ho.outcome.collections.map Prod.fst, ho.pih)) =
      some ([0, 1], [false, true, true]) ∧
    (process_line rec_c1).map ProcessedLine.results = Except.ok [0, 0, 0] ∧
    claim_winners [0, 0, 0] [false, true, true] 3 = [1, 2] ∧
    ([0, 1] : List ℕ) ≠ [1, 2] := by
  refine ⟨by with_unfolding_all rfl, by with_unfolding_all rfl,
    by with_unfolding_all rfl, by decide⟩

/-- Claim C2 (corrected): with exactly one unfolded player, `award_pot`
always subtracts the recorded last bet increment `current_bet` from the
pot — whether or not that increment was ever matched — reports it as an
uncalled bet returned to the first player with strictly positive net
result, and has that same player collect the reduced pot. -/
theorem award_pot_uncontested_deduction (n : ℕ) (pos : Positions) (results : List ℚ)
    (pih : List Bool) (wt : List ℤ) (cb : ℤ) (cp : ℕ)
    (hone : pih.count true = 1) (hW : winners_of results n ≠ []) :
    award_pot n pos results pih wt cb cp =
      some ⟨wt.sum, wt.sum - cb, [],
            [((winners_of results n).headD 0, ((wt.sum - cb : ℤ) : ℚ))],
            some (cb, (winners_of results n).headD 0)⟩ := by
  simp only [award_pot]
  rw [if_neg (by omega : ¬ 1 < pih.count true)]
  cases hw : winners_of results n with
  | nil => exact absurd hw hW
  | cons w ws => simp

/-- Witness for `award_pot_uncontested_deduction`: the big blind folds after
its blind was called; the $10 increment is deducted although matched. -/
theorem award_pot_uncontested_deduction_witness :
    ([false, true] : List Bool).count true = 1 ∧
    winners_of [-1, 1] 2 ≠ [] ∧
    award_pot 2 (positions_for 2) [-1, 1] [false, true] [10, 10] 10 1 =
      some ⟨([10, 10] : List ℤ).sum, ([10, 10] : List ℤ).sum - 10, [],
            [((winners_of [-1, 1] 2).headD 0, (((([10, 10] : List ℤ).sum - 10 : ℤ)) : ℚ))],
            some (10, (winners_of [-1, 1] 2).headD 0)⟩ :=
  ⟨by decide, by with_unfolding_all decide,
   award_pot_uncontested_deduction 2 (positions_for 2) [-1, 1] [false, true] [10, 10] 10 1
     (by decide) (by with_unfolding_all decide)⟩

/-- Counterexample for claim C2: in `rec_c2` the caller fully matched the
big blind before the blind player folded — both wagered totals are equal,
so no part of any bet is unmatched — yet the code still reports a $10
uncalled-bet return and awards only $10 of the $20 pot. -/
theorem award_pot_uncalled_counterexample :
    (run_hand GameType.limit 10 rec_c2).map
        (fun ho => (ho.wagered_total, ho.outcome.pot_total, ho.outcome.pot_awarded,
                    ho.outcome.collections, ho.outcome.uncalled)) =
      some ([10, 10], 20, 10, [(1, 10)], some (10, 1)) := by
  with_unfolding_all rfl

/-- Claim C10 (corrected): with exactly one unfolded player the
`winners[0]` access of the uncalled-bet branch is in bounds precisely when
some player has a strictly positive recorded result; with no positive
result the access is an `IndexError` (modelled `none`), so the behaviour on
such hands is a crash, and such hands do reach `award_pot` because the
parser never validates results against the betting. -/
theorem award_pot_sole_winner_defined (n : ℕ) (pos : Positions) (results : List ℚ)
    (pih : List Bool) (wt : List ℤ) (cb : ℤ) (cp : ℕ)
    (hone : pih.count true = 1) :
    (award_pot n pos results pih wt cb cp = none ↔ winners_of results n = []) := by
  simp only [award_pot]
  rw [if_neg (by omega : ¬ 1 < pih.count true)]
  cases hw : winners_of results n with
  | nil => simp
  | cons w ws => simp

/-- Witness for `award_pot_sole_winner_defined`. -/
theorem award_pot_sole_winner_defined_witness :
    ([false, true] : List Bool).count true = 1 ∧
    (award_pot 2 (positions_for 2) [0, 0] [false, true] [10, 10] 10 1 = none ↔
      winners_of [0, 0] 2 = []) :=
  ⟨by decide,
   award_pot_sole_winner_defined 2 (positions_for 2) [0, 0] [false, true] [10, 10] 10 1
     (by decide)⟩

/-- Counterexample for claim C10: `rec_c10` parses fine, reaches
`award_pot` with a single unfolded player and no positive result, and the
`winners[0]` access crashes (the pipeline yields `none`). -/
theorem award_pot_sole_winner_counterexample :
    (run_to_showdown GameType.limit 10 rec_c10).map
        (fun r => (r.2.pih, r.1.results)) = some ([false, true], [0, 0]) ∧
    run_hand GameType.limit 10 rec_c10 = none := by
  refine ⟨by with_unfolding_all rfl, by with_unfolding_all rfl⟩

/-- Claim C5 (confirmed): a no-limit bet or raise with explicit absolute
target sets the increment to `target − (prior-hand total + prior street
contribution) − amountOwed`, adds `amountOwed + increment` to the street
contribution, raises the street bet level by exactly the increment, and
records the increment as the new last bet. -/
theorem exec_action_raise_increment (round : ℕ) (wt : List ℤ) (st : StState)
    (tgt : ℤ) (p q : ℕ)
    (hfind : find_in_hand st.pih st.cur_pl = some p)
    (hadv : find_in_hand st.pih (p + 1) = some q) :
    ∃ ev st1,
      exec_action GameType.noLimit round wt (RawAction.raise tgt) st = some ([ev], st1) ∧
      st1.cur_bet =
        tgt - (wt.getD p 0 + st.w_round.getD p 0) - (st.bet_round - st.w_round.getD p 0) ∧
      st1.w_round =
        st.w_round.set p
          (st.w_round.getD p 0 + ((st.bet_round - st.w_round.getD p 0) + st1.cur_bet)) ∧
      st1.bet_round = st.bet_round + st1.cur_bet ∧
      st1.pih = st.pih ∧ st1.cur_pl = q ∧
      ev = (if 0 < st.bet_round - st.w_round.getD p 0 ∨ round = 0 then
              Event.raisesTo p ((st.bet_round - st.w_round.getD p 0) + st1.cur_bet)
                st1.bet_round
            else Event.bets p st1.cur_bet) := by
  unfold exec_action
  simp only [hfind, hadv]
  refine ⟨_, _, rfl, ?_, rfl, rfl, rfl, rfl, rfl⟩
  show tgt - wt.getD p 0 - st.w_round.getD p 0 - (st.bet_round - st.w_round.getD p 0) =
    tgt - (wt.getD p 0 + st.w_round.getD p 0) - (st.bet_round - st.w_round.getD p 0)
  ring

/-- Witness for `exec_action_raise_increment`: the spec's `r200` fixture —
zero prior contributions and nothing owed gives a raise of $200 to $200. -/
theorem exec_action_raise_increment_witness :
    ∃ ev st1,
      exec_action GameType.noLimit 0 [0, 0] (RawAction.raise 200)
          ⟨[true, true], [0, 0], 0, 0, 0⟩ = some ([ev], st1) ∧
      st1.cur_bet = 200 ∧
      st1.w_round = ([0, 0] : List ℤ).set 0 (0 + (0 + st1.cur_bet)) ∧
      st1.bet_round = 0 + st1.cur_bet ∧
      st1.pih = [true, true] ∧ st1.cur_pl = 1 ∧
      ev = Event.raisesTo 0 (0 + st1.cur_bet) st1.bet_round :=
  exec_action_raise_increment 0 [0, 0] ⟨[true, true], [0, 0], 0, 0, 0⟩ 200 0 1
    (by decide) (by decide)

/-- Claim C8 (confirmed): for a check-or-call token the amount owed is the
street bet level minus the acting player's street contribution; a zero owed
amount is a check leaving the contribution unchanged, and a nonzero owed
amount is a call of exactly that amount, added to the contribution. -/
theorem exec_action_checkcall_spec (gt : GameType) (round : ℕ) (wt : List ℤ)
    (st : StState) (p q : ℕ)
    (hfind : find_in_hand st.pih st.cur_pl = some p)
    (hadv : find_in_hand st.pih (p + 1) = some q) :
    (st.bet_round - st.w_round.getD p 0 = 0 →
      exec_action gt round wt RawAction.checkcall st =
        some ([Event.checks p], ⟨st.pih, st.w_round, st.bet_round, st.cur_bet, q⟩)) ∧
    (st.bet_round - st.w_round.getD p 0 ≠ 0 →
      exec_action gt round wt RawAction.checkcall st =
        some ([Event.calls p (st.bet_round - st.w_round.getD p 0)],
              ⟨st.pih,
               st.w_round.set p
                 (st.w_round.getD p 0 + (st.bet_round - st.w_round.getD p 0)),
               st.bet_round, st.cur_bet, q⟩)) := by
  unfold exec_action
  simp only [hfind, hadv]
  constructor
  · intro h
    rw [if_pos h]
  · intro h
    rw [if_neg h]

/-- Witness for `exec_action_checkcall_spec`: a check with nothing owed and
a call of $5 when $5 is owed. -/
theorem exec_action_checkcall_spec_witness :
    exec_action GameType.limit 0 [0, 0] RawAction.checkcall
        ⟨[true, true], [10, 10], 10, 10, 0⟩ =
      some ([Event.checks 0], ⟨[true, true], [10, 10], 10, 10, 1⟩) ∧
    exec_action GameType.limit 0 [0, 0] RawAction.checkcall
        ⟨[true, true], [10, 5], 10, 10, 1⟩ =
      some ([Event.calls 1 5], ⟨[true, true], [10, 10], 10, 10, 0⟩) := by
  constructor
  · have h := (exec_action_checkcall_spec GameType.limit 0 [0, 0]
      ⟨[true, true], [10, 10], 10, 10, 0⟩ 0 1 (by decide) (by decide)).1 (by decide)
    exact h
  · have h := (exec_action_checkcall_spec GameType.limit 0 [0, 0]
      ⟨[true, true], [10, 5], 10, 10, 1⟩ 1 0 (by decide) (by decide)).2 (by decide)
    exact h

/-- Claim C9 (confirmed): whenever `create_actions` processes a hand to
completion, the number of fold events plus the number of players still
marked in hand equals the player count. -/
theorem create_actions_fold_invariant (gt : GameType) (bb : ℤ) (n : ℕ)
    (pos : Positions) (rounds : List (List RawAction)) (hs : HandSt)
    (hrun : create_actions gt bb n pos rounds = some hs) :
    fold_count hs.events + hs.pih.count true = n := by
  unfold create_actions at hrun
  have h := run_rounds_count hrun
  simpa [fold_count, List.count_replicate] using h

/-- Witness for `create_actions_fold_invariant`: heads-up, a call followed
by a fold leaves one fold event and one player in hand. -/
theorem create_actions_fold_invariant_witness :
    create_actions GameType.limit 10 2 (positions_for 2)
        [[RawAction.checkcall, RawAction.fold]] =
      some ⟨[false, true], [10, 10], 10, 1, [Event.calls 1 5, Event.folds 0]⟩ ∧
    fold_count [Event.calls 1 5, Event.folds 0] +
        ([false, true] : List Bool).count true = 2 :=
  ⟨by decide,
   create_actions_fold_invariant GameType.limit 10 2 (positions_for 2)
     [[RawAction.checkcall, RawAction.fold]]
     ⟨[false, true], [10, 10], 10, 1, [Event.calls 1 5, Event.folds 0]⟩ (by decide)⟩

/-- Claim C3 (corrected): after an `r` in a no-limit street string, all
contiguous digits are consumed as one integer (the absolute target), and
the scan then continues at the first non-digit — but tokenization is not
total: when the digit run (possibly empty) after an `r` extends to the end
of the string, the inner scan reads past the end, an `IndexError` in the
source, modelled `none`. -/
theorem tokenize_nl_raise_consumption (ds : List Char) (c : Char) (rest : List Char)
    (hds : ∀ d ∈ ds, d.isDigit = true) (hc : c.isDigit = false) :
    tokenize_nl ('r' :: (ds ++ c :: rest)) =
      (tokenize_nl (c :: rest)).map (fun ts => RawAction.raise (digits_val ds) :: ts) ∧
    tokenize_nl ('r' :: ds) = none := by
  constructor
  · simp only [tokenize_nl]
    rw [tok_nl]
    simp only []
    rw [if_pos trivial]
    rw [takeWhile_digits_append ds c rest hds hc]
    rw [if_neg (by simp only [List.length_append, List.length_cons]; omega)]
    rw [List.drop_left]
    rw [tok_nl_fuel_eq ('r' :: (ds ++ c :: rest)).length ((c :: rest).length + 1)
      (c :: rest) (by simp only [List.length_cons, List.length_append]; omega) (by omega)]
    cases h1 : tok_nl ((c :: rest).length + 1) (c :: rest) with
    | none => rfl
    | some ts => rfl
  · simp only [tokenize_nl]
    rw [tok_nl]
    simp only []
    rw [if_pos trivial]
    rw [takeWhile_all_digits ds hds]
    rw [if_pos rfl]

/-- Witness for `tokenize_nl_raise_consumption` on the street `r200c`. -/
theorem tokenize_nl_raise_consumption_witness :
    (∀ d ∈ (['2', '0', '0'] : List Char), d.isDigit = true) ∧
    (tokenize_nl ('r' :: (['2', '0', '0'] ++ 'c' :: [])) =
      (tokenize_nl ('c' :: [])).map
        (fun ts => RawAction.raise (digits_val ['2', '0', '0']) :: ts) ∧
     tokenize_nl ('r' :: ['2', '0', '0']) = none) :=
  ⟨by decide, tokenize_nl_raise_consumption ['2', '0', '0'] 'c' [] (by decide) (by decide)⟩

/-- Counterexample for claim C3: the street string `r200`, whose raise
digits are the last characters, makes the scan read past the end of the
string (an uncaught `IndexError`) instead of tokenizing totally. -/
theorem tokenize_nl_trailing_raise_counterexample :
    tokenize_nl "r200".toList = none ∧ tokenize_nl "r200c".toList ≠ none := by
  refine ⟨by decide, by decide⟩

/-- Claim C4 (the claim is right, the code is wrong): no
`InvalidActionStream` error exists anywhere in the source.  A no-limit
raise with no trailing digits is silently tokenized as a raise of size 0
and processing continues; and when no unfolded player remains, the actor
scan — `while not players_in_hand[current_player]` — cycles through all
seats forever (every fuel bound returns `none`), an infinite loop reached
from the parseable record `rec_c4` in which both players fold. -/
theorem create_actions_no_error_surfacing :
    (∀ fuel start, find_aux [false, false] fuel start = none) ∧
    tokenize_nl ['r', 'c'] = some [RawAction.raise 0, RawAction.checkcall] ∧
    run_to_showdown GameType.limit 10 rec_c4 = none := by
  refine ⟨?_, by decide, by with_unfolding_all rfl⟩
  intro fuel
  induction fuel with
  | zero =>
    intro start
    rfl
  | succ f ih =>
    intro start
    have h2 : start % 2 = 0 ∨ start % 2 = 1 := by omega
    rcases h2 with h | h <;> rw [find_aux] <;> simp [h, ih]

/-- Claim C6 (corrected): on the heads-up limit fixture with big blind 10,
the small blind posts $5, the big blind posts $10, both players show their
hole cards at showdown, and P1 (player index 0) collects the entire pot —
but the pot is $20, not $40: each player wagers exactly $10 preflop and the
remaining streets check through. -/
theorem run_hand_heads_up_fixture :
    (run_hand GameType.limit 10 rec_c6).map
        (fun ho => (ho.sb_post, ho.bb_post, ho.outcome.shown, ho.outcome.collections,
                    ho.outcome.pot_total, ho.outcome.uncalled)) =
      some (5, 10, [0, 1], [(0, 20)], 20, none) ∧
    (process_line rec_c6).map ProcessedLine.hole_cards =
      Except.ok ["AhKs".toList, "QdQc".toList] := by
  refine ⟨by with_unfolding_all rfl, by with_unfolding_all rfl⟩

/-- Counterexample for claim C6: the fixture's total pot is $20, so the
claimed $40 award is wrong. -/
theorem run_hand_fixture_pot_counterexample :
    (run_hand GameType.limit 10 rec_c6).map (fun ho => ho.outcome.pot_total) = some 20 ∧
    ¬ (run_hand GameType.limit 10 rec_c6).map (fun ho => ho.outcome.pot_total) = some 40 := by
  refine ⟨by with_unfolding_all rfl, by with_unfolding_all decide⟩

/-- Claim C7 (corrected): `process_line` succeeds exactly when the five
validation conditions all fail AND the id field parses as an integer AND
every result field parses as a float AND the cards field has at least as
many `|`-groups as there are players; the last three are additional
failure modes — Python `ValueError` and `IndexError` — beyond the five
typed checks.  Each of the five checks, when it is the failure surfaced,
does correspond to its claimed condition. -/
theorem process_line_validation (h : List Char) :
    ((process_line h).isOk = true ↔
      (¬cond_field_count h ∧ id_ok h ∧ ¬cond_player_count h ∧ results_ok h ∧
       ¬cond_result_count h ∧ ¬cond_street_count h ∧ cards_ok h ∧ ¬cond_street_board h)) ∧
    (process_line h = Except.error PErr.malformedRecord → cond_field_count h) ∧
    (process_line h = Except.error PErr.unsupportedPlayerCount → cond_player_count h) ∧
    (process_line h = Except.error PErr.inconsistentResults → cond_result_count h) ∧
    (process_line h = Except.error PErr.invalidStreetCount → cond_street_count h) ∧
    (process_line h = Except.error PErr.inconsistentStreets → cond_street_board h) := by
  rcases hsplit : split_on_char ':' h with _ | ⟨f0, _ | ⟨f1, _ | ⟨f2, _ | ⟨f3, _ | ⟨f4, _ | ⟨f5, _ | ⟨f6, rest⟩⟩⟩⟩⟩⟩⟩
  case nil => simp [process_line, hsplit, cond_field_count, fields_of, Except.isOk, Except.toBool]
  case cons.nil => simp [process_line, hsplit, cond_field_count, fields_of, Except.isOk, Except.toBool]
  case cons.cons.nil => simp [process_line, hsplit, cond_field_count, fields_of, Except.isOk, Except.toBool]
  case cons.cons.cons.nil =>
    simp [process_line, hsplit, cond_field_count, fields_of, Except.isOk, Except.toBool]
  case cons.cons.cons.cons.nil =>
    simp [process_line, hsplit, cond_field_count, fields_of, Except.isOk, Except.toBool]
  case cons.cons.cons.cons.cons.nil =>
    simp [process_line, hsplit, cond_field_count, fields_of, Except.isOk, Except.toBool]
  case cons.cons.cons.cons.cons.cons.cons =>
    simp [process_line, hsplit, cond_field_count, fields_of, Except.isOk, Except.toBool]
  case cons.cons.cons.cons.cons.cons.nil =>
    simp only [process_line, hsplit, cond_field_count, cond_player_count, cond_result_count,
      cond_street_count, cond_street_board, id_ok, results_ok, cards_ok, players_field,
      results_field, streets_field, card_field, board_group_count, fields_of,
      List.getD_cons_zero, List.getD_cons_succ, List.length_cons, List.length_nil, ne_eq]
    cases hpi : parseInt? f1 with
    | none => simp [Except.isOk, Except.toBool]
    | some idv =>
      simp only [Option.isSome_some]
      by_cases hp : 3 < (split_on_char '|' f5).length ∨ (split_on_char '|' f5).length < 2
      · rw [if_pos hp]
        simp [Except.isOk, Except.toBool, hp]
      · rw [if_neg hp]
        cases hres : (split_on_char '|' f4).mapM parseFloat? with
        | none => simp [Except.isOk, Except.toBool, hp]
        | some results =>
          simp only [Option.isSome_some]
          have hlen := mapM_length_option parseFloat? hres
          by_cases hrc : results.length = (split_on_char '|' f5).length
          · rw [if_neg (not_not_intro hrc)]
            by_cases hsc : (split_on_char '/' f2).length < 1 ∨ 4 < (split_on_char '/' f2).length
            · rw [if_pos hsc]
              simp only [Nat.lt_one_iff, List.length_eq_zero] at hsc
              simp [Except.isOk, Except.toBool, hp, hsc, hlen, hrc]
            · rw [if_neg hsc]
              have hsc2 : ¬ (split_on_char '/' f2 = [] ∨ 4 < (split_on_char '/' f2).length) := by
                simpa [Nat.lt_one_iff, List.length_eq_zero] using hsc
              by_cases hp2 : (split_on_char '|' f5).length = 2
              · rw [if_pos hp2]
                rcases hcards : split_on_char '|' f3 with _ | ⟨c0, _ | ⟨c1, tl⟩⟩
                · simp [Except.isOk, Except.toBool, hp, hsc, hlen, hrc, hp2]
                · simp [Except.isOk, Except.toBool, hp, hsc, hlen, hrc, hp2]
                · by_cases hfin : (split_on_char '/' f2).length =
                      (split_on_char '/' c1).length - 1 + 1
                  · simp [Except.isOk, Except.toBool, hp, hsc, hlen, hrc, hp2, hfin,
                      List.length_drop] <;> omega
                  · simp [Except.isOk, Except.toBool, hp, hsc, hlen, hrc, hp2, hfin,
                      List.length_drop]
              · rw [if_neg hp2]
                have hp3 : (split_on_char '|' f5).length = 3 := by omega
                rcases hcards : split_on_char '|' f3 with _ | ⟨c0, _ | ⟨c1, _ | ⟨c2, tl⟩⟩⟩
                · simp [Except.isOk, Except.toBool, hp, hsc, hlen, hrc, hp3]
                · simp [Except.isOk, Except.toBool, hp, hsc, hlen, hrc, hp3]
                · simp [Except.isOk, Except.toBool, hp, hsc, hlen, hrc, hp3]
                · by_cases hfin : (split_on_char '/' f2).length =
                      (split_on_char '/' c2).length - 1 + 1
                  · simp [Except.isOk, Except.toBool, hp, hsc, hlen, hrc, hp3, hp2, hfin,
                      List.length_drop] <;> omega
                  · simp [Except.isOk, Except.toBool, hp, hsc, hlen, hrc, hp3, hp2, hfin,
                      List.length_drop]
          · rw [if_pos hrc]
            simp [Except.isOk, Except.toBool, hp, hlen, hrc] <;> omega
/-- Witness for `process_line_validation`: a well-formed record parses. -/
theorem process_line_validation_witness :
    (process_line rec_c7b).isOk = true :=
  (process_line_validation rec_c7b).1.mpr
    ⟨by decide, by decide, by decide, by with_unfolding_all decide, by decide, by decide,
     by decide, by decide⟩

/-- Counterexample for claim C7: `rec_c7` satisfies none of the five
validation conditions, yet `process_line` fails on it — the cards field
has a single `|`-group, so `cards[1]` is an `IndexError`. -/
theorem process_line_extra_failure_counterexample :
    process_line rec_c7 = Except.error PErr.badCards ∧
    ¬ cond_field_count rec_c7 ∧ ¬ cond_player_count rec_c7 ∧ ¬ cond_result_count rec_c7 ∧
    ¬ cond_street_count rec_c7 ∧ ¬ cond_street_board rec_c7 := by
  refine ⟨by with_unfolding_all rfl, by decide, by decide, by decide, by decide, by decide⟩

end ACPC
